import Mathlib

/-!
Verification of the credit-ledger subsystem of the goldenpricelist repository.

The embedding follows the CreditProvider variant of src/src/context/OrderContext.tsx
(the document containing addClient at lines 849-919, addTransaction at 996-1035,
addPartialPayment at 1044-1077, settleClient at 1080-1115, returnBottles at
1118-1145), the bottle-description parser of the earlier CreditProvider variant
(lines 524-579), and the realtime INSERT/UPDATE handlers of
src/src/context/OverContext.tsx (lines 101-118).

Conventions of the embedding:
  - monetary amounts (JavaScript numbers) are modelled as rationals;
  - bottle counts are modelled as integers (JavaScript numbers used as counts);
  - timestamps are modelled as naturals, passed explicitly as a `now` argument;
  - the remote store and the local state are kept in lock step on the success
    path, so a single `LedgerState` models both; every operation is modelled on
    its success path, exactly as the source mutates state.
-/

namespace GoldenPriceList

/-- Per-category bottle-deposit counts, mirroring the bottlesOwed object
`{ beer, guinness, malta, coca, chopines }` of the source. -/
structure Bottles where
  beer : Int
  guinness : Int
  malta : Int
  coca : Int
  chopines : Int
deriving DecidableEq, Repr

/-- The all-zero bottles object `{ beer: 0, guinness: 0, malta: 0, coca: 0, chopines: 0 }`. -/
def zeroBottles : Bottles := ⟨0, 0, 0, 0, 0⟩

/-- A row of the credit_clients collection (camelCase in-memory form). -/
structure Client where
  id : String
  name : String
  totalDebt : Rat
  bottlesOwed : Bottles
  createdAt : Nat
  lastTransactionAt : Nat
deriving DecidableEq, Repr

/-- Transaction type tag: 'debt' | 'payment'. -/
inductive TType where
  | debt
  | payment
deriving DecidableEq, Repr

/-- A row of the credit_transactions collection. -/
structure Transaction where
  clientId : String
  description : String
  amount : Rat
  date : Nat
  ttype : TType
deriving DecidableEq, Repr

/-- Payment type tag: 'partial' | 'full'. -/
inductive PType where
  | part
  | full
deriving DecidableEq, Repr

/-- A row of the credit_payments collection. -/
structure Payment where
  clientId : String
  amount : Rat
  date : Nat
  ptype : PType
deriving DecidableEq, Repr

/-- The three collections held by the provider: clients, transactions, payments. -/
structure LedgerState where
  clients : List Client
  transactions : List Transaction
  payments : List Payment
deriving DecidableEq, Repr

/-- Embeds `clients.find(c => c.id === clientId)`. -/
def findClient (l : List Client) (cid : String) : Option Client :=
  l.find? (fun c => c.id == cid)

/-- Embeds the row update `.eq('id', clientId)` / the local
`prev.map(c => c.id === clientId ? f c : c)` pattern: every client whose id
matches is rewritten by `f`, the others are untouched. -/
def updateClient (l : List Client) (cid : String) (f : Client → Client) : List Client :=
  l.map (fun c => if c.id == cid then f c else c)

/-- Embeds getClientTotalDebt: `clients.find(c => c.id === clientId)?.totalDebt || 0`. -/
def getClientTotalDebt (s : LedgerState) (cid : String) : Rat :=
  match findClient s.clients cid with
  | some c => c.totalDebt
  | none => 0

/-- Embeds getClientBottlesOwed: the bottlesOwed of the matching client, or the
all-zero object when no client matches. -/
def getClientBottlesOwed (s : LedgerState) (cid : String) : Bottles :=
  match findClient s.clients cid with
  | some c => c.bottlesOwed
  | none => zeroBottles

/-- Embeds addTransaction (lines 996-1035): inserts a debt transaction, then
updates the client row with `total_debt = getClientTotalDebt(client.id) + amount`
and a fresh last_transaction_at. No validation is performed on `amount`. -/
def addTransaction (s : LedgerState) (cid : String) (description : String)
    (amount : Rat) (now : Nat) : LedgerState :=
  { s with
    transactions := s.transactions ++ [⟨cid, description, amount, now, TType.debt⟩]
    clients := updateClient s.clients cid (fun c =>
      { c with totalDebt := getClientTotalDebt s cid + amount, lastTransactionAt := now }) }

/-- Embeds addPartialPayment (lines 1044-1077): inserts a partial payment, then
updates the client row with `total_debt = Math.max(0, currentDebt - amount)` and
a fresh last_transaction_at. No validation is performed on `amount`. -/
def addPartialPayment (s : LedgerState) (cid : String) (amount : Rat) (now : Nat) :
    LedgerState :=
  { s with
    payments := s.payments ++ [⟨cid, amount, now, PType.part⟩]
    clients := updateClient s.clients cid (fun c =>
      { c with totalDebt := max 0 (getClientTotalDebt s cid - amount),
               lastTransactionAt := now }) }

/-- Embeds settleClient (lines 1080-1115): when the current debt is positive a
full payment of exactly that debt is inserted; in every case the client row is
reset to zero debt and all-zero bottles with a fresh last_transaction_at. -/
def settleClient (s : LedgerState) (cid : String) (now : Nat) : LedgerState :=
  let currentDebt := getClientTotalDebt s cid
  { s with
    payments :=
      if 0 < currentDebt then s.payments ++ [⟨cid, currentDebt, now, PType.full⟩]
      else s.payments
    clients := updateClient s.clients cid (fun c =>
      { c with totalDebt := 0, bottlesOwed := zeroBottles, lastTransactionAt := now }) }

/-- The optional per-category quantities passed to returnBottles
(`{ beer?, guinness?, malta?, coca?, chopines? }`); a missing field reads as 0
via `(returnedBottles.x || 0)`. -/
structure ReturnedBottles where
  beer : Option Int := none
  guinness : Option Int := none
  malta : Option Int := none
  coca : Option Int := none
  chopines : Option Int := none
deriving DecidableEq, Repr

/-- Embeds the newBottles computation of returnBottles:
`Math.max(0, currentBottles.x - (returnedBottles.x || 0))` per category. -/
def clampReturn (cur : Bottles) (ret : ReturnedBottles) : Bottles :=
  { beer := max 0 (cur.beer - (ret.beer.getD 0))
    guinness := max 0 (cur.guinness - (ret.guinness.getD 0))
    malta := max 0 (cur.malta - (ret.malta.getD 0))
    coca := max 0 (cur.coca - (ret.coca.getD 0))
    chopines := max 0 (cur.chopines - (ret.chopines.getD 0)) }

/-- Embeds returnBottles (lines 1118-1145): rewrites the client row with the
clamped bottle counts and a fresh last_transaction_at. -/
def returnBottles (s : LedgerState) (cid : String) (ret : ReturnedBottles) (now : Nat) :
    LedgerState :=
  { s with
    clients := updateClient s.clients cid (fun c =>
      { c with bottlesOwed := clampReturn (getClientBottlesOwed s cid) ret,
               lastTransactionAt := now }) }

/-- Embeds the amount guard of handlePartialPayment in the ClientActionModal UI
component: `if (isNaN(amount) || amount <= 0 || amount > totalDebt) return;`
else `addPartialPayment(client.id, amount)`. A `none` amount models NaN from
parseFloat. -/
def handlePartialPayment (s : LedgerState) (cid : String) (amount : Option Rat)
    (now : Nat) : LedgerState :=
  match amount with
  | none => s
  | some a =>
      if a ≤ 0 ∨ getClientTotalDebt s cid < a then s
      else addPartialPayment s cid a now

/-- The client record created by addClient: zero debt, all-zero bottles. -/
def freshClient (cid name : String) (now : Nat) : Client :=
  ⟨cid, name, 0, zeroBottles, now, now⟩

/-- A ledger holding exactly one freshly created client and empty logs. -/
def freshState (cid name : String) (now : Nat) : LedgerState :=
  ⟨[freshClient cid name now], [], []⟩

/-- Sum of the amounts of the debt transactions of one client. -/
def clientDebtSum (s : LedgerState) (cid : String) : Rat :=
  ((s.transactions.filter (fun t => t.clientId == cid && t.ttype == TType.debt)).map
    (fun t => t.amount)).sum

/-- Sum of the amounts of the payments of one client. -/
def clientPaySum (s : LedgerState) (cid : String) : Rat :=
  ((s.payments.filter (fun p => p.clientId == cid)).map (fun p => p.amount)).sum

/-- One user action of the debt/payment history of a client. -/
inductive Step where
  | debt (description : String) (amount : Rat)
  | pay (amount : Rat)
deriving DecidableEq, Repr

/-- Applies one step through the corresponding provider operation. -/
def applyStep (s : LedgerState) (cid : String) : Step → LedgerState
  | Step.debt d a => addTransaction s cid d a 0
  | Step.pay a => addPartialPayment s cid a 0

/-- Applies a sequence of steps in order. -/
def applySeq (s : LedgerState) (cid : String) (l : List Step) : LedgerState :=
  l.foldl (fun s st => applyStep s cid st) s

/-- Validity of a step sequence: every debt amount is nonnegative and every
payment amount is at most the cached debt at the moment it is applied (this is
exactly what the UI guard of handlePartialPayment enforces). -/
def ValidFrom (s : LedgerState) (cid : String) : List Step → Prop
  | [] => True
  | Step.debt d a :: l => 0 ≤ a ∧ ValidFrom (applyStep s cid (Step.debt d a)) cid l
  | Step.pay a :: l =>
      a ≤ getClientTotalDebt s cid ∧ ValidFrom (applyStep s cid (Step.pay a)) cid l

/-- Tests whether a character is an ASCII decimal digit, i.e. matches the
regular-expression class backslash-d of JavaScript. -/
def jsDigit (c : Char) : Bool := '0' ≤ c && c ≤ '9'

/-- Numeric value of a list of ASCII digits, most significant first; this is
what parseInt returns on a string made of those digits. -/
def digitsToNat (ds : List Char) : Nat :=
  ds.foldl (fun acc c => 10 * acc + (c.toNat - 48)) 0

/-- Embeds the test `id.match(/^G\d{3}$/)`: the character G followed by exactly
three ASCII digits. -/
def matchesGId : List Char → Bool
  | ['G', a, b, c] => jsDigit a && jsDigit b && jsDigit c
  | _ => false

/-- Embeds `nextNumber.toString().padStart(3, '0')`. -/
def pad3 (n : Nat) : List Char :=
  let s := Nat.toDigits 10 n
  List.replicate (3 - s.length) '0' ++ s

/-- Embeds the scan of addClient over the ascending-sorted matched numbers:
`let nextNumber = 1; for (num of sorted) { if (num === nextNumber) nextNumber++;
else break; }`. -/
def nextFree : List Nat → Nat → Nat
  | [], n => n
  | x :: xs, n => if x = n then nextFree xs (n + 1) else n

/-- The matched integer values of the existing ids:
`ids.filter(id => id.match(/^G\d{3}$/)).map(id => parseInt(id.substring(1)))`. -/
def gNums (ids : List String) : List Nat :=
  (ids.filter (fun s => matchesGId s.data)).map (fun s => digitsToNat (s.data.drop 1))

/-- The nextNumber value computed by addClient for a given id set: the matched
numbers are sorted ascending (`.sort((a, b) => a - b)`) and scanned. -/
def allocNumber (ids : List String) : Nat :=
  nextFree (List.insertionSort (· ≤ ·) (gNums ids)) 1

/-- Embeds the id-generation block of addClient (lines 868-882): the allocated
id is the letter G followed by nextNumber zero-padded to width 3. -/
def allocate (ids : List String) : String :=
  String.mk ('G' :: pad3 (allocNumber ids))

/-- ASCII model of String.prototype.toLowerCase: maps A-Z to a-z and leaves
every other character unchanged. This agrees with the JavaScript function on
every character relevant to the parser patterns (letters, digits, dot, spaces). -/
def toLowerJS (c : Char) : Char :=
  if 'A' ≤ c && c ≤ 'Z' then Char.ofNat (c.toNat + 32) else c

/-- The whitespace class backslash-s of JavaScript regular expressions. -/
def jsSpace (c : Char) : Bool :=
  let n := c.toNat
  n == 32 || n == 9 || n == 10 || n == 11 || n == 12 || n == 13 || n == 160 ||
    n == 5760 || (decide (8192 ≤ n) && decide (n ≤ 8202)) || n == 8232 ||
    n == 8233 || n == 8239 || n == 8287 || n == 12288 || n == 65279

/-- The character class [0-9.] used inside the bouteille lookahead. -/
def digitDot (c : Char) : Bool := jsDigit c || c == '.'

/-- Length of the maximal run of characters satisfying p at the head of cs. -/
def runLen (p : Char → Bool) (cs : List Char) : Nat :=
  (cs.takeWhile p).length

/-- Whether pat occurs at the head of cs. -/
def startsWithL : List Char → List Char → Bool
  | [], _ => true
  | _ :: _, [] => false
  | p :: ps, c :: cs => p == c && startsWithL ps cs

/-- Whether the head character of cs is c. -/
def headIs (cs : List Char) (c : Char) : Bool :=
  match cs with
  | [] => false
  | x :: _ => x == c

/-- Substring containment, as String.prototype.includes. -/
def containsSub (pat : List Char) : List Char → Bool
  | [] => startsWithL pat []
  | c :: rest => startsWithL pat (c :: rest) || containsSub pat rest

/-- Tries f at n, n-1, ..., 0 and returns the first defined answer; this models
the backtracking order of a greedy star quantifier. -/
def firstSome (f : Nat → Option Nat) : Nat → Option Nat
  | 0 => f 0
  | n + 1 =>
    match f (n + 1) with
    | some r => some r
    | none => firstSome f n

/-- Tries f at n, n-1, ..., 1 and returns the first defined answer; this models
the backtracking order of a greedy plus quantifier. -/
def firstSomePos (f : Nat → Option Nat) : Nat → Option Nat
  | 0 => none
  | n + 1 =>
    match f (n + 1) with
    | some r => some r
    | none => firstSomePos f n

/-- Existence version of firstSome over n, n-1, ..., 0. -/
def anyDown (f : Nat → Bool) : Nat → Bool
  | 0 => f 0
  | n + 1 => f (n + 1) || anyDown f n

/-- Existence version over n, n-1, ..., 1. -/
def anyDownPos (f : Nat → Bool) : Nat → Bool
  | 0 => false
  | n + 1 => f (n + 1) || anyDownPos f n

/-- Whether the lookahead pattern backslash-s star [0-9.]+ l matches at the head
of cs: some number of whitespace characters, then at least one digit or dot,
then the letter l. -/
def lookaheadSizeL (cs : List Char) : Bool :=
  anyDown
    (fun spaceCount =>
      let rest := cs.drop spaceCount
      anyDownPos
        (fun bodyCount => headIs (rest.drop bodyCount) 'l')
        (runLen digitDot rest))
    (runLen jsSpace cs)

/-- Tail matcher for a fixed literal such as 1.5l, 2l or 0.5l. -/
def tailLit (lit : List Char) (cs : List Char) : Option Nat :=
  if startsWithL lit cs then some lit.length else none

/-- Tail matcher for chopines? : the literal chopine with an optional greedy s. -/
def tailChopine (cs : List Char) : Option Nat :=
  if startsWithL "chopine".data cs then
    if headIs (cs.drop 7) 's' then some 8 else some 7
  else none

/-- Tail matcher for bouteilles? followed by the negative lookahead
(?! backslash-s star [0-9.]+ l), with the backtracking of the optional s: when
the greedy alternative including the s fails the lookahead, the engine retries
without the s, and there the lookahead starts at the character s itself, which
is neither whitespace nor a digit or dot, so the negative lookahead succeeds. -/
def tailBouteille (cs : List Char) : Option Nat :=
  if startsWithL "bouteille".data cs then
    let after := cs.drop 9
    if headIs after 's' then
      if lookaheadSizeL (after.drop 1) then some 9 else some 10
    else
      if lookaheadSizeL after then none else some 9
  else none

/-- Anchored match of (backslash-d+) backslash-s star TAIL at the head of cs,
with the greedy backtracking order of the JavaScript engine: longest digit run
first, then longest whitespace run first. Returns the total match length. -/
def matchFrom (tail : List Char → Option Nat) (cs : List Char) : Option Nat :=
  firstSomePos
    (fun digitCount =>
      let rest := cs.drop digitCount
      firstSome
        (fun spaceCount => (tail (rest.drop spaceCount)).map
          (fun t => digitCount + spaceCount + t))
        (runLen jsSpace rest))
    (runLen jsDigit cs)

/-- Global scan of String.prototype.match with a g flag: non-overlapping
matches found left to right, the scan resuming after each match; for each match
the recorded quantity is parseInt of its leading digit run (the source
re-extracts it with match.match of a digit group). The fuel argument is the
length of the remaining text; every match consumes at least one character. -/
def scanAux (tail : List Char → Option Nat) : Nat → List Char → List Nat
  | 0, _ => []
  | _ + 1, [] => []
  | fuel + 1, cs@(_ :: rest) =>
    match matchFrom tail cs with
    | some len => digitsToNat ((cs.take len).takeWhile jsDigit) :: scanAux tail fuel (cs.drop len)
    | none => scanAux tail fuel rest

/-- All quantities captured by one pattern over the whole text. -/
def scanMatches (tail : List Char → Option Nat) (cs : List Char) : List Nat :=
  scanAux tail cs.length cs

/-- The per-category counts returned by parseBottlesFromDescription. -/
structure ParsedBottles where
  beer : Nat
  guinness : Nat
  malta : Nat
  coca : Nat
  chopines : Nat
deriving DecidableEq, Repr

/-- Embeds parseBottlesFromDescription (lines 524-579 of the earlier
CreditProvider variant): the description is lowercased, five regular
expressions are scanned globally and their quantities summed per category, and
the bare-word fallbacks add an implicit 1 for chopines when the text contains
chopine with no numeric chopine match, and an implicit 1 for beer when the text
contains bouteille with no numeric match of any bottle pattern. -/
def parseBottlesFromDescription (d : String) : ParsedBottles :=
  let cs := d.data.map toLowerJS
  let chopineQs := scanMatches tailChopine cs
  let q15 := scanMatches (tailLit "1.5l".data) cs
  let q2 := scanMatches (tailLit "2l".data) cs
  let q05 := scanMatches (tailLit "0.5l".data) cs
  let bQs := scanMatches tailBouteille cs
  { chopines := chopineQs.sum +
      (if containsSub "chopine".data cs && chopineQs.isEmpty then 1 else 0)
    malta := q15.sum
    coca := q2.sum
    guinness := q05.sum
    beer := bQs.sum +
      (if containsSub "bouteille".data cs && bQs.isEmpty && q15.isEmpty &&
          q2.isEmpty && q05.isEmpty then 1 else 0) }

/-- A row of the over_items collection, as mapped from a realtime payload in
OverContext.tsx (completedAt is optional). -/
structure OverItem where
  id : String
  name : String
  createdAt : Nat
  isCompleted : Bool
  completedAt : Option Nat
deriving DecidableEq, Repr

/-- Embeds the INSERT handler of the over_items realtime subscription
(OverContext.tsx lines 101-109):
`setItems(prev => [newItem, ...prev.filter(item => item.id !== newItem.id)])`. -/
def applyInsertEvent (items : List OverItem) (e : OverItem) : List OverItem :=
  e :: items.filter (fun i => i.id != e.id)

/-- Embeds the UPDATE handler of the over_items realtime subscription
(OverContext.tsx lines 110-118):
`setItems(prev => prev.map(item => item.id === updatedItem.id ? updatedItem : item))`. -/
def applyUpdateEvent (items : List OverItem) (e : OverItem) : List OverItem :=
  items.map (fun i => if i.id == e.id then e else i)

/-! Helper lemmas about client lookup and row updates. -/

theorem findClient_update (l : List Client) (cid : String) (f : Client → Client)
    (hf : ∀ c, (f c).id = c.id) :
    findClient (updateClient l cid f) cid = (findClient l cid).map f := by
  induction l with
  | nil => rfl
  | cons c l ih =>
    cases hb : c.id == cid with
    | true =>
      have hfb : ((f c).id == cid) = true := by rw [hf c]; exact hb
      rw [updateClient, List.map_cons, if_pos hb, findClient, List.find?_cons, hfb,
        findClient, List.find?_cons, hb]
      rfl
    | false =>
      rw [updateClient, List.map_cons, if_neg (by simp [hb]), findClient, List.find?_cons,
        hb, findClient, List.find?_cons, hb]
      exact ih

theorem update_of_not_found (l : List Client) (cid : String) (f : Client → Client)
    (h : findClient l cid = none) : updateClient l cid f = l := by
  induction l with
  | nil => rfl
  | cons c l ih =>
    rw [findClient, List.find?_cons] at h
    cases hb : c.id == cid with
    | true => rw [hb] at h; cases h
    | false =>
      rw [hb] at h
      rw [updateClient, List.map_cons, if_neg (by simp [hb])]
      have ht : updateClient l cid f = l := ih h
      rw [updateClient] at ht
      rw [ht]

theorem findClient_update_found (l : List Client) (cid : String) (f : Client → Client)
    (c : Client) (hc : findClient l cid = some c) (hf : ∀ x, (f x).id = x.id) :
    findClient (updateClient l cid f) cid = some (f c) := by
  rw [findClient_update l cid f hf, hc]
  rfl

theorem getClientTotalDebt_eq (s : LedgerState) (cid : String) (c : Client)
    (hc : findClient s.clients cid = some c) : getClientTotalDebt s cid = c.totalDebt := by
  simp [getClientTotalDebt, hc]

theorem getClientBottlesOwed_eq (s : LedgerState) (cid : String) (c : Client)
    (hc : findClient s.clients cid = some c) : getClientBottlesOwed s cid = c.bottlesOwed := by
  simp [getClientBottlesOwed, hc]

theorem findClient_addTransaction (s : LedgerState) (cid d : String) (a : Rat) (now : Nat)
    (c : Client) (hc : findClient s.clients cid = some c) :
    findClient (addTransaction s cid d a now).clients cid =
      some { c with totalDebt := getClientTotalDebt s cid + a, lastTransactionAt := now } := by
  have h1 : (addTransaction s cid d a now).clients = updateClient s.clients cid (fun c =>
      { c with totalDebt := getClientTotalDebt s cid + a, lastTransactionAt := now }) := rfl
  rw [h1]
  refine findClient_update_found s.clients cid _ c hc ?_
  intro x
  rfl

theorem findClient_addPartialPayment (s : LedgerState) (cid : String) (a : Rat) (now : Nat)
    (c : Client) (hc : findClient s.clients cid = some c) :
    findClient (addPartialPayment s cid a now).clients cid =
      some { c with totalDebt := max 0 (getClientTotalDebt s cid - a),
                    lastTransactionAt := now } := by
  have h1 : (addPartialPayment s cid a now).clients = updateClient s.clients cid (fun c =>
      { c with totalDebt := max 0 (getClientTotalDebt s cid - a),
               lastTransactionAt := now }) := rfl
  rw [h1]
  refine findClient_update_found s.clients cid _ c hc ?_
  intro x
  rfl

theorem debtSum_addTransaction (s : LedgerState) (cid d : String) (a : Rat) (now : Nat) :
    clientDebtSum (addTransaction s cid d a now) cid = clientDebtSum s cid + a := by
  simp [clientDebtSum, addTransaction, List.filter_append]

theorem paySum_addTransaction (s : LedgerState) (cid d : String) (a : Rat) (now : Nat) :
    clientPaySum (addTransaction s cid d a now) cid = clientPaySum s cid := rfl

theorem debtSum_addPartialPayment (s : LedgerState) (cid : String) (a : Rat) (now : Nat) :
    clientDebtSum (addPartialPayment s cid a now) cid = clientDebtSum s cid := rfl

theorem paySum_addPartialPayment (s : LedgerState) (cid : String) (a : Rat) (now : Nat) :
    clientPaySum (addPartialPayment s cid a now) cid = clientPaySum s cid + a := by
  simp [clientPaySum, addPartialPayment, List.filter_append]

/-- C3: settling a client whose current debt is strictly positive appends
exactly one full payment whose amount is the exact current debt, leaves the
cached totalDebt at 0, resets every bottlesOwed entry of that client to 0, and
stamps lastTransactionAt with the settlement time. -/
theorem settleClient_positive_debt (s : LedgerState) (cid : String) (now : Nat) (c : Client)
    (hc : findClient s.clients cid = some c) (hd : 0 < c.totalDebt) :
    (settleClient s cid now).payments = s.payments ++ [⟨cid, c.totalDebt, now, PType.full⟩] ∧
    getClientTotalDebt (settleClient s cid now) cid = 0 ∧
    findClient (settleClient s cid now).clients cid =
      some { c with totalDebt := 0, bottlesOwed := zeroBottles, lastTransactionAt := now } ∧
    (settleClient s cid now).transactions = s.transactions := by
  have hget : getClientTotalDebt s cid = c.totalDebt := getClientTotalDebt_eq s cid c hc
  have hfind : findClient (settleClient s cid now).clients cid =
      some { c with totalDebt := 0, bottlesOwed := zeroBottles, lastTransactionAt := now } := by
    have h1 : (settleClient s cid now).clients = updateClient s.clients cid (fun c =>
        { c with totalDebt := 0, bottlesOwed := zeroBottles, lastTransactionAt := now }) := rfl
    rw [h1]
    refine findClient_update_found s.clients cid _ c hc ?_
    intro x
    rfl
  refine ⟨?_, ?_, hfind, rfl⟩
  · have h2 : (settleClient s cid now).payments =
        if 0 < getClientTotalDebt s cid then
          s.payments ++ [⟨cid, getClientTotalDebt s cid, now, PType.full⟩]
        else s.payments := rfl
    rw [h2, hget, if_pos hd]
  · rw [getClientTotalDebt, hfind]

theorem settleClient_positive_debt_witness :
    (settleClient ⟨[⟨"G001", "John", 150, zeroBottles, 0, 0⟩], [], []⟩ "G001" 7).payments =
      [⟨"G001", 150, 7, PType.full⟩] ∧
    getClientTotalDebt (settleClient ⟨[⟨"G001", "John", 150, zeroBottles, 0, 0⟩], [], []⟩
      "G001" 7) "G001" = 0 := by
  have h := settleClient_positive_debt ⟨[⟨"G001", "John", 150, zeroBottles, 0, 0⟩], [], []⟩
    "G001" 7 ⟨"G001", "John", 150, zeroBottles, 0, 0⟩ (by decide) (by norm_num)
  exact ⟨by simpa using h.1, h.2.1⟩

/-- C10: settling a client whose current debt is 0 appends no payment record at
all, yet still resets the bottlesOwed mapping of that client to all-zero and
stamps lastTransactionAt with the settlement time. -/
theorem settleClient_zero_debt (s : LedgerState) (cid : String) (now : Nat) (c : Client)
    (hc : findClient s.clients cid = some c) (hd : c.totalDebt = 0) :
    (settleClient s cid now).payments = s.payments ∧
    findClient (settleClient s cid now).clients cid =
      some { c with totalDebt := 0, bottlesOwed := zeroBottles, lastTransactionAt := now } := by
  have hget : getClientTotalDebt s cid = c.totalDebt := getClientTotalDebt_eq s cid c hc
  constructor
  · have h2 : (settleClient s cid now).payments =
        if 0 < getClientTotalDebt s cid then
          s.payments ++ [⟨cid, getClientTotalDebt s cid, now, PType.full⟩]
        else s.payments := rfl
    rw [h2, hget, hd, if_neg (lt_irrefl 0)]
  · have h1 : (settleClient s cid now).clients = updateClient s.clients cid (fun c =>
        { c with totalDebt := 0, bottlesOwed := zeroBottles, lastTransactionAt := now }) := rfl
    rw [h1]
    refine findClient_update_found s.clients cid _ c hc ?_
    intro x
    rfl

theorem settleClient_zero_debt_witness :
    (settleClient ⟨[⟨"G001", "John", 0, ⟨2, 0, 1, 0, 3⟩, 0, 0⟩], [], []⟩ "G001" 7).payments =
      [] ∧
    findClient (settleClient ⟨[⟨"G001", "John", 0, ⟨2, 0, 1, 0, 3⟩, 0, 0⟩], [], []⟩
        "G001" 7).clients "G001" =
      some ⟨"G001", "John", 0, zeroBottles, 0, 7⟩ := by
  have h := settleClient_zero_debt ⟨[⟨"G001", "John", 0, ⟨2, 0, 1, 0, 3⟩, 0, 0⟩], [], []⟩
    "G001" 7 ⟨"G001", "John", 0, ⟨2, 0, 1, 0, 3⟩, 0, 0⟩ (by decide) rfl
  exact ⟨h.1, h.2⟩

/-- C5: returnBottles rewrites each category of the client to
max(0, owed - returned) using the supplied quantity (0 when a category is not
supplied), stamps lastTransactionAt, and no category is ever driven below 0,
however large the returned quantities are. -/
theorem returnBottles_clamps (s : LedgerState) (cid : String) (ret : ReturnedBottles)
    (now : Nat) (c : Client) (hc : findClient s.clients cid = some c) :
    findClient (returnBottles s cid ret now).clients cid =
      some { c with bottlesOwed := clampReturn c.bottlesOwed ret, lastTransactionAt := now } ∧
    (0 ≤ (clampReturn c.bottlesOwed ret).beer ∧
     0 ≤ (clampReturn c.bottlesOwed ret).guinness ∧
     0 ≤ (clampReturn c.bottlesOwed ret).malta ∧
     0 ≤ (clampReturn c.bottlesOwed ret).coca ∧
     0 ≤ (clampReturn c.bottlesOwed ret).chopines) := by
  have hget : getClientBottlesOwed s cid = c.bottlesOwed := getClientBottlesOwed_eq s cid c hc
  refine ⟨?_, le_max_left 0 _, le_max_left 0 _, le_max_left 0 _, le_max_left 0 _,
    le_max_left 0 _⟩
  have h1 : (returnBottles s cid ret now).clients = updateClient s.clients cid (fun c =>
      { c with bottlesOwed := clampReturn (getClientBottlesOwed s cid) ret,
               lastTransactionAt := now }) := rfl
  rw [h1, hget]
  refine findClient_update_found s.clients cid _ c hc ?_
  intro x
  rfl

theorem returnBottles_clamps_witness :
    findClient (returnBottles ⟨[⟨"G001", "John", 0, ⟨2, 1, 0, 0, 5⟩, 0, 0⟩], [], []⟩ "G001"
        { beer := some 100, chopines := some 2 } 9).clients "G001" =
      some ⟨"G001", "John", 0, ⟨0, 1, 0, 0, 3⟩, 0, 9⟩ := by
  have h := returnBottles_clamps ⟨[⟨"G001", "John", 0, ⟨2, 1, 0, 0, 5⟩, 0, 0⟩], [], []⟩
    "G001" { beer := some 100, chopines := some 2 } 9
    ⟨"G001", "John", 0, ⟨2, 1, 0, 0, 5⟩, 0, 0⟩ (by decide)
  have := h.1
  simpa [clampReturn] using this

/-- C7: applying the same over_items Insert event twice yields exactly the same
store state as applying it once, the store afterwards holds exactly one entity
with the id of the event, and that entity is the incoming one. -/
theorem insertEvent_idempotent (items : List OverItem) (e : OverItem) :
    applyInsertEvent (applyInsertEvent items e) e = applyInsertEvent items e ∧
    (applyInsertEvent items e).filter (fun i => i.id == e.id) = [e] ∧
    e ∈ applyInsertEvent items e := by
  refine ⟨?_, ?_, List.mem_cons_self e _⟩
  · simp [applyInsertEvent, List.filter_filter]
  · simp [applyInsertEvent, List.filter_cons, List.filter_filter]

/-- C8 counterexample: an Update event whose id is absent from the store is not
an implicit insert; on the empty store it leaves the store empty instead of
adding the entity. -/
theorem updateEvent_no_implicit_insert :
    applyUpdateEvent [] ⟨"i1", "Milk", 0, false, none⟩ = ([] : List OverItem) ∧
    ⟨"i1", "Milk", 0, false, none⟩ ∉ applyUpdateEvent [] ⟨"i1", "Milk", 0, false, none⟩ := by
  exact ⟨rfl, by simp [applyUpdateEvent]⟩

/-- C8 amended: the Update merge replaces every stored entity whose id matches
the incoming entity (so the incoming entity is present afterwards whenever some
stored entity matched) and never changes the number of entities; when no stored
entity has the incoming id the event is a no-op, not an implicit insert. -/
theorem updateEvent_replaces_or_noop (items : List OverItem) (e : OverItem) :
    ((∀ i ∈ items, i.id ≠ e.id) → applyUpdateEvent items e = items) ∧
    (applyUpdateEvent items e).length = items.length ∧
    (∀ i ∈ items, i.id = e.id → e ∈ applyUpdateEvent items e) := by
  refine ⟨fun h => ?_, List.length_map _ _, fun i hi hid => ?_⟩
  · have : ∀ i ∈ items, (if i.id == e.id then e else i) = i := by
      intro i hi
      simp [h i hi]
    simpa [applyUpdateEvent] using List.map_congr_left this
  · have hmem : (if i.id == e.id then e else i) ∈ applyUpdateEvent items e :=
      List.mem_map_of_mem _ hi
    rw [if_pos (by simp [hid])] at hmem
    exact hmem

theorem updateEvent_replaces_or_noop_witness :
    applyUpdateEvent [⟨"a", "Tea", 0, false, none⟩] ⟨"b", "Jam", 1, true, none⟩ =
      [⟨"a", "Tea", 0, false, none⟩] := by
  exact (updateEvent_replaces_or_noop [⟨"a", "Tea", 0, false, none⟩]
    ⟨"b", "Jam", 1, true, none⟩).1 (by decide)

/-- C9 counterexample: addPartialPayment on a clientId with no matching client
does not fail with NotFound; it records the payment remotely and proceeds as if
the client had zero debt, leaving the client collection untouched. -/
theorem unknown_client_no_notfound :
    (addPartialPayment (freshState "G001" "John" 0) "ZZZ" 50 3).payments =
      [⟨"ZZZ", 50, 3, PType.part⟩] ∧
    (addPartialPayment (freshState "G001" "John" 0) "ZZZ" 50 3).clients =
      (freshState "G001" "John" 0).clients ∧
    getClientTotalDebt (freshState "G001" "John" 0) "ZZZ" = 0 := by
  refine ⟨rfl, ?_, rfl⟩
  simp [addPartialPayment, freshState, updateClient, freshClient]

/-- C9 amended: no operation raises NotFound for an unknown client id;
getClientTotalDebt falls back to 0 when no client matches, and
addPartialPayment on an unknown id still appends the partial payment while the
client collection is left unchanged. -/
theorem unknown_client_proceeds (s : LedgerState) (cid : String) (a : Rat) (now : Nat)
    (h : findClient s.clients cid = none) :
    getClientTotalDebt s cid = 0 ∧
    (addPartialPayment s cid a now).clients = s.clients ∧
    (addPartialPayment s cid a now).payments = s.payments ++ [⟨cid, a, now, PType.part⟩] := by
  refine ⟨by simp [getClientTotalDebt, h], ?_, rfl⟩
  simp [addPartialPayment, update_of_not_found _ _ _ h]

theorem unknown_client_proceeds_witness :
    getClientTotalDebt (freshState "G001" "John" 0) "G999" = 0 ∧
    (addPartialPayment (freshState "G001" "John" 0) "G999" 10 1).clients =
      (freshState "G001" "John" 0).clients := by
  have h := unknown_client_proceeds (freshState "G001" "John" 0) "G999" 10 1 (by decide)
  exact ⟨h.1, h.2.1⟩

/-- C2 counterexample: addPartialPayment performs no amount validation at all;
with a current debt of 150, a payment of 200 is not rejected with InvalidAmount
before the remote call: the payment row is written and the cached debt is
clamped to 0 instead of remaining 150. -/
theorem overpayment_not_rejected :
    (addPartialPayment ⟨[⟨"G001", "John", 150, zeroBottles, 0, 0⟩], [], []⟩ "G001" 200
        5).payments = [⟨"G001", 200, 5, PType.part⟩] ∧
    getClientTotalDebt (addPartialPayment ⟨[⟨"G001", "John", 150, zeroBottles, 0, 0⟩], [], []⟩
        "G001" 200 5) "G001" = 0 := by
  constructor
  · rfl
  · have h := findClient_addPartialPayment ⟨[⟨"G001", "John", 150, zeroBottles, 0, 0⟩], [], []⟩
      "G001" 200 5 ⟨"G001", "John", 150, zeroBottles, 0, 0⟩ (by decide)
    rw [getClientTotalDebt, h]
    norm_num [getClientTotalDebt, findClient, List.find?]

/-- C2 amended: addPartialPayment itself validates nothing: for every amount it
appends a partial payment and sets the cached debt to max(0, debt - amount).
The InvalidAmount guard (amount not parseable, nonpositive, or above the
current debt) lives in the UI handler handlePartialPayment, which returns with
no state change, and hence before any remote call, exactly when the guard
fires. -/
theorem addPartialPayment_unvalidated (s : LedgerState) (cid : String) (a : Rat) (now : Nat)
    (c : Client) (hc : findClient s.clients cid = some c) :
    ((addPartialPayment s cid a now).payments = s.payments ++ [⟨cid, a, now, PType.part⟩] ∧
     getClientTotalDebt (addPartialPayment s cid a now) cid = max 0 (c.totalDebt - a)) ∧
    ((a ≤ 0 ∨ c.totalDebt < a) → handlePartialPayment s cid (some a) now = s) ∧
    handlePartialPayment s cid none now = s := by
  have hget : getClientTotalDebt s cid = c.totalDebt := getClientTotalDebt_eq s cid c hc
  refine ⟨⟨rfl, ?_⟩, fun h => ?_, rfl⟩
  · rw [getClientTotalDebt, findClient_addPartialPayment s cid a now c hc, hget]
  · simp only [handlePartialPayment, hget]
    rw [if_pos h]

theorem addPartialPayment_unvalidated_witness :
    getClientTotalDebt (addPartialPayment ⟨[⟨"G002", "Jane", 100, zeroBottles, 0, 0⟩], [], []⟩
        "G002" 30 2) "G002" = 70 ∧
    handlePartialPayment ⟨[⟨"G002", "Jane", 100, zeroBottles, 0, 0⟩], [], []⟩ "G002"
      (some 200) 2 = ⟨[⟨"G002", "Jane", 100, zeroBottles, 0, 0⟩], [], []⟩ := by
  have h := addPartialPayment_unvalidated ⟨[⟨"G002", "Jane", 100, zeroBottles, 0, 0⟩], [], []⟩
    "G002" 30 2 ⟨"G002", "Jane", 100, zeroBottles, 0, 0⟩ (by decide)
  have h2 := addPartialPayment_unvalidated ⟨[⟨"G002", "Jane", 100, zeroBottles, 0, 0⟩], [], []⟩
    "G002" 200 2 ⟨"G002", "Jane", 100, zeroBottles, 0, 0⟩ (by decide)
  refine ⟨?_, h2.2.1 (by norm_num)⟩
  rw [h.1.2]
  norm_num

theorem findClient_freshState (cid name : String) (t : Nat) :
    findClient (freshState cid name t).clients cid = some (freshClient cid name t) := by
  show List.find? (fun c => c.id == cid) [freshClient cid name t] = some (freshClient cid name t)
  rw [List.find?_cons]
  have h : ((freshClient cid name t).id == cid) = true := beq_self_eq_true cid
  rw [h]

theorem validFrom_append_left (cid : String) (p q : List Step) :
    ∀ s, ValidFrom s cid (p ++ q) → ValidFrom s cid p := by
  induction p with
  | nil => intro s _; trivial
  | cons st p ih =>
    intro s hv
    cases st with
    | debt d a =>
      obtain ⟨ha, hv2⟩ := hv
      exact ⟨ha, ih _ hv2⟩
    | pay a =>
      obtain ⟨ha, hv2⟩ := hv
      exact ⟨ha, ih _ hv2⟩

theorem validSeq_invariant (l : List Step) : ∀ (s : LedgerState) (cid : String) (c : Client),
    findClient s.clients cid = some c →
    getClientTotalDebt s cid = clientDebtSum s cid - clientPaySum s cid →
    clientPaySum s cid ≤ clientDebtSum s cid →
    ValidFrom s cid l →
    getClientTotalDebt (applySeq s cid l) cid =
      clientDebtSum (applySeq s cid l) cid - clientPaySum (applySeq s cid l) cid ∧
    clientPaySum (applySeq s cid l) cid ≤ clientDebtSum (applySeq s cid l) cid := by
  induction l with
  | nil =>
    intro s cid c _ h1 h2 _
    exact ⟨h1, h2⟩
  | cons st l ih =>
    intro s cid c hc h1 h2 hv
    cases st with
    | debt d a =>
      obtain ⟨ha, hv2⟩ := hv
      have hc2 := findClient_addTransaction s cid d a 0 c hc
      have hg : getClientTotalDebt (addTransaction s cid d a 0) cid =
          getClientTotalDebt s cid + a := by rw [getClientTotalDebt, hc2]
      have hstep : applySeq s cid (Step.debt d a :: l) =
          applySeq (addTransaction s cid d a 0) cid l := rfl
      rw [hstep]
      refine ih (addTransaction s cid d a 0) cid _ hc2 ?_ ?_ hv2
      · rw [hg, debtSum_addTransaction, paySum_addTransaction, h1]
        ring
      · rw [debtSum_addTransaction, paySum_addTransaction]
        exact h2.trans (le_add_of_nonneg_right ha)
    | pay a =>
      obtain ⟨ha, hv2⟩ := hv
      have hc2 := findClient_addPartialPayment s cid a 0 c hc
      have hnn : 0 ≤ getClientTotalDebt s cid - a := sub_nonneg.mpr ha
      have hg : getClientTotalDebt (addPartialPayment s cid a 0) cid =
          getClientTotalDebt s cid - a := by
        rw [getClientTotalDebt, hc2]
        exact max_eq_right hnn
      have hstep : applySeq s cid (Step.pay a :: l) =
          applySeq (addPartialPayment s cid a 0) cid l := rfl
      rw [hstep]
      have hle : a ≤ clientDebtSum s cid - clientPaySum s cid := h1 ▸ ha
      refine ih (addPartialPayment s cid a 0) cid _ hc2 ?_ ?_ hv2
      · rw [hg, debtSum_addPartialPayment, paySum_addPartialPayment, h1]
        ring
      · rw [debtSum_addPartialPayment, paySum_addPartialPayment]
        linarith

/-- C1 counterexample: the cached totalDebt does not track
max(0, sum of debts - sum of payments) over arbitrary addTransaction and
addPartialPayment sequences. After debt 100, payment 150 (accepted and clamped
to 0 by addPartialPayment), debt 50, the cache holds 50 while the formula over
the recorded history gives max(0, 150 - 150) = 0. -/
theorem debt_conservation_counterexample :
    getClientTotalDebt (applySeq (freshState "G001" "John" 0) "G001"
        [Step.debt "a" 100, Step.pay 150, Step.debt "b" 50]) "G001" = 50 ∧
    max 0 (clientDebtSum (applySeq (freshState "G001" "John" 0) "G001"
        [Step.debt "a" 100, Step.pay 150, Step.debt "b" 50]) "G001" -
      clientPaySum (applySeq (freshState "G001" "John" 0) "G001"
        [Step.debt "a" 100, Step.pay 150, Step.debt "b" 50]) "G001") = 0 ∧
    (50 : Rat) ≠ 0 := by
  have h0 := findClient_freshState "G001" "John" 0
  have g0 : getClientTotalDebt (freshState "G001" "John" 0) "G001" = 0 := by
    rw [getClientTotalDebt, h0]
    rfl
  have h1 := findClient_addTransaction (freshState "G001" "John" 0) "G001" "a" 100 0 _ h0
  have g1 : getClientTotalDebt
      (addTransaction (freshState "G001" "John" 0) "G001" "a" 100 0) "G001" = 100 := by
    rw [getClientTotalDebt, h1]
    show getClientTotalDebt (freshState "G001" "John" 0) "G001" + 100 = 100
    rw [g0]
    norm_num
  have h2 := findClient_addPartialPayment
    (addTransaction (freshState "G001" "John" 0) "G001" "a" 100 0) "G001" 150 0 _ h1
  have g2 : getClientTotalDebt (addPartialPayment
      (addTransaction (freshState "G001" "John" 0) "G001" "a" 100 0) "G001" 150 0)
      "G001" = 0 := by
    rw [getClientTotalDebt, h2]
    show max 0 (getClientTotalDebt
      (addTransaction (freshState "G001" "John" 0) "G001" "a" 100 0) "G001" - 150) = 0
    rw [g1]
    have hle : (100 : Rat) - 150 ≤ 0 := by norm_num
    rw [max_eq_left hle]
  have h3 := findClient_addTransaction (addPartialPayment
    (addTransaction (freshState "G001" "John" 0) "G001" "a" 100 0) "G001" 150 0)
    "G001" "b" 50 0 _ h2
  have g3 : getClientTotalDebt (addTransaction (addPartialPayment
      (addTransaction (freshState "G001" "John" 0) "G001" "a" 100 0) "G001" 150 0)
      "G001" "b" 50 0) "G001" = 50 := by
    rw [getClientTotalDebt, h3]
    show getClientTotalDebt (addPartialPayment
      (addTransaction (freshState "G001" "John" 0) "G001" "a" 100 0) "G001" 150 0)
      "G001" + 50 = 50
    rw [g2]
    norm_num
  have hd : clientDebtSum (addTransaction (addPartialPayment
      (addTransaction (freshState "G001" "John" 0) "G001" "a" 100 0) "G001" 150 0)
      "G001" "b" 50 0) "G001" = 150 := by
    rw [debtSum_addTransaction, debtSum_addPartialPayment, debtSum_addTransaction]
    show (0 : Rat) + 100 + 50 = 150
    norm_num
  have hp : clientPaySum (addTransaction (addPartialPayment
      (addTransaction (freshState "G001" "John" 0) "G001" "a" 100 0) "G001" 150 0)
      "G001" "b" 50 0) "G001" = 150 := by
    rw [paySum_addTransaction, paySum_addPartialPayment, paySum_addTransaction]
    show (0 : Rat) + 150 = 150
    norm_num
  refine ⟨g3, ?_, by norm_num⟩
  show max 0 (clientDebtSum (addTransaction (addPartialPayment
      (addTransaction (freshState "G001" "John" 0) "G001" "a" 100 0) "G001" 150 0)
      "G001" "b" 50 0) "G001" - clientPaySum (addTransaction (addPartialPayment
      (addTransaction (freshState "G001" "John" 0) "G001" "a" 100 0) "G001" 150 0)
      "G001" "b" 50 0) "G001") = 0
  rw [hd, hp]
  norm_num

/-- C1 amended: the cached totalDebt equals max(0, sum of debt amounts - sum of
payment amounts) after every step of any sequence of addTransaction and
addPartialPayment calls in which every debt amount is nonnegative and every
payment amount is at most the cached debt at the moment it is applied (the
guard the payment UI enforces); without that restriction the clamp inside
addPartialPayment makes the cache exceed the formula, as the counterexample
shows. -/
theorem debt_conservation_valid (cid name : String) (t : Nat) (p q : List Step)
    (hv : ValidFrom (freshState cid name t) cid (p ++ q)) :
    getClientTotalDebt (applySeq (freshState cid name t) cid p) cid =
      max 0 (clientDebtSum (applySeq (freshState cid name t) cid p) cid -
        clientPaySum (applySeq (freshState cid name t) cid p) cid) := by
  have hp : ValidFrom (freshState cid name t) cid p := validFrom_append_left cid p q _ hv
  have hfind : findClient (freshState cid name t).clients cid = some (freshClient cid name t) := by
    rw [freshState, findClient, List.find?_cons]
    have : ((freshClient cid name t).id == cid) = true := by
      rw [freshClient]
      exact beq_self_eq_true cid
    rw [this]
  have hinit : getClientTotalDebt (freshState cid name t) cid =
      clientDebtSum (freshState cid name t) cid - clientPaySum (freshState cid name t) cid := by
    rw [getClientTotalDebt, hfind]
    show (0 : Rat) = 0 - 0
    norm_num
  have hinit2 : clientPaySum (freshState cid name t) cid ≤
      clientDebtSum (freshState cid name t) cid := le_rfl
  have h := validSeq_invariant p (freshState cid name t) cid (freshClient cid name t)
    hfind hinit hinit2 hp
  rw [h.1, max_eq_right (sub_nonneg.mpr h.2)]

theorem debt_conservation_valid_witness :
    getClientTotalDebt (applySeq (freshState "G001" "John" 0) "G001"
        [Step.debt "a" 100, Step.pay 60]) "G001" =
      max 0 (clientDebtSum (applySeq (freshState "G001" "John" 0) "G001"
        [Step.debt "a" 100, Step.pay 60]) "G001" -
        clientPaySum (applySeq (freshState "G001" "John" 0) "G001"
        [Step.debt "a" 100, Step.pay 60]) "G001") := by
  refine debt_conservation_valid "G001" "John" 0 [Step.debt "a" 100, Step.pay 60] [] ?_
  refine ⟨by norm_num, ?_, trivial⟩
  have h0 := findClient_freshState "G001" "John" 0
  have g0 : getClientTotalDebt (freshState "G001" "John" 0) "G001" = 0 := by
    rw [getClientTotalDebt, h0]
    rfl
  have h1 := findClient_addTransaction (freshState "G001" "John" 0) "G001" "a" 100 0 _ h0
  have g1 : getClientTotalDebt
      (addTransaction (freshState "G001" "John" 0) "G001" "a" 100 0) "G001" = 100 := by
    rw [getClientTotalDebt, h1]
    show getClientTotalDebt (freshState "G001" "John" 0) "G001" + 100 = 100
    rw [g0]
    norm_num
  show (60 : Rat) ≤ getClientTotalDebt
    (addTransaction (freshState "G001" "John" 0) "G001" "a" 100 0) "G001"
  rw [g1]
  norm_num

theorem matchesGId_shape (l : List Char) (h : matchesGId l = true) :
    ∃ a b c, l = ['G', a, b, c] ∧ jsDigit a = true ∧ jsDigit b = true ∧ jsDigit c = true := by
  unfold matchesGId at h
  split at h
  · next a b c =>
      simp only [Bool.and_eq_true] at h
      exact ⟨a, b, c, rfl, h.1.1, h.1.2, h.2⟩
  · cases h

theorem jsDigit_bounds (x : Char) (hx : jsDigit x = true) :
    48 ≤ x.toNat ∧ x.toNat ≤ 57 := by
  rw [jsDigit, Bool.and_eq_true, decide_eq_true_iff, decide_eq_true_iff] at hx
  exact ⟨hx.1, hx.2⟩

theorem parse_inj (l1 l2 : List Char) (h1 : matchesGId l1 = true) (h2 : matchesGId l2 = true)
    (he : digitsToNat (l1.drop 1) = digitsToNat (l2.drop 1)) : l1 = l2 := by
  obtain ⟨a1, b1, c1, rfl, ha1, hb1, hc1⟩ := matchesGId_shape l1 h1
  obtain ⟨a2, b2, c2, rfl, ha2, hb2, hc2⟩ := matchesGId_shape l2 h2
  have e : 10 * (10 * (10 * 0 + (a1.toNat - 48)) + (b1.toNat - 48)) + (c1.toNat - 48) =
      10 * (10 * (10 * 0 + (a2.toNat - 48)) + (b2.toNat - 48)) + (c2.toNat - 48) := he
  obtain ⟨la1, ua1⟩ := jsDigit_bounds a1 ha1
  obtain ⟨lb1, ub1⟩ := jsDigit_bounds b1 hb1
  obtain ⟨lc1, uc1⟩ := jsDigit_bounds c1 hc1
  obtain ⟨la2, ua2⟩ := jsDigit_bounds a2 ha2
  obtain ⟨lb2, ub2⟩ := jsDigit_bounds b2 hb2
  obtain ⟨lc2, uc2⟩ := jsDigit_bounds c2 hc2
  have ea : a1.toNat = a2.toNat := by omega
  have eb : b1.toNat = b2.toNat := by omega
  have ec : c1.toNat = c2.toNat := by omega
  rw [Char.eq_of_val_eq (UInt32.toNat.inj ea), Char.eq_of_val_eq (UInt32.toNat.inj eb),
    Char.eq_of_val_eq (UInt32.toNat.inj ec)]

theorem gNums_nodup (ids : List String) (h : ids.Nodup) : (gNums ids).Nodup := by
  rw [gNums]
  refine List.Nodup.map_on ?_ (h.filter _)
  intro s1 hs1 s2 hs2 he
  have h1 : matchesGId s1.data = true := by simpa using List.of_mem_filter hs1
  have h2 : matchesGId s2.data = true := by simpa using List.of_mem_filter hs2
  have hdata : s1.data = s2.data := parse_inj _ _ h1 h2 he
  cases s1
  cases s2
  simp_all

theorem nextFree_spec : ∀ (l : List Nat) (n : Nat),
    List.Sorted (fun a b => a ≤ b) l → l.Nodup → (∀ x ∈ l, n ≤ x) →
    n ≤ nextFree l n ∧ nextFree l n ∉ l ∧ ∀ m, n ≤ m → m < nextFree l n → m ∈ l := by
  intro l
  induction l with
  | nil =>
    intro n _ _ _
    exact ⟨le_rfl, by simp [nextFree], fun m h1 h2 => absurd (h1.trans_lt h2) (lt_irrefl n)⟩
  | cons x xs ih =>
    intro n hs hnd hlb
    rw [List.sorted_cons] at hs
    rw [List.nodup_cons] at hnd
    by_cases hx : x = n
    · subst hx
      have hlb2 : ∀ y ∈ xs, x + 1 ≤ y := by
        intro y hy
        have hy1 := hs.1 y hy
        have hy2 : y ≠ x := fun he => hnd.1 (he ▸ hy)
        omega
      obtain ⟨ih1, ih2, ih3⟩ := ih (x + 1) hs.2 hnd.2 hlb2
      have heq : nextFree (x :: xs) x = nextFree xs (x + 1) := by
        rw [nextFree, if_pos rfl]
      rw [heq]
      refine ⟨by omega, ?_, ?_⟩
      · intro hmem
        rcases List.mem_cons.mp hmem with h | h
        · omega
        · exact ih2 h
      · intro m hm1 hm2
        rcases eq_or_lt_of_le hm1 with he | hlt
        · exact he ▸ List.mem_cons_self x xs
        · exact List.mem_cons_of_mem _ (ih3 m (by omega) hm2)
    · have heq : nextFree (x :: xs) n = n := by
        rw [nextFree, if_neg hx]
      rw [heq]
      have hxn : n < x := lt_of_le_of_ne (hlb x (List.mem_cons_self x xs))
        (fun h => hx h.symm)
      refine ⟨le_rfl, ?_, fun m h1 h2 => absurd (h1.trans_lt h2) (lt_irrefl n)⟩
      intro hmem
      rcases List.mem_cons.mp hmem with h | h
      · omega
      · have := hs.1 n h
        omega

/-- C4 counterexample: when an id G000 is present (it matches the G-plus-three-
digits pattern with value 0), the scan of addClient stops at the very first
sorted number and allocates G001 even though G001 is already in use; the
claimed smallest positive missing number would be 2, so the claimed result
would be G002. -/
theorem allocate_g000_counterexample :
    allocate ["G000", "G001"] = "G001" ∧ "G001" ∈ ["G000", "G001"] ∧
    allocate ["G000", "G001"] ≠ "G002" := by
  refine ⟨by decide, by decide, by decide⟩

/-- C4 amended: for every duplicate-free id set in which no matching id has the
numeric value 0 (no G000), the allocator returns the letter G concatenated with
the smallest positive integer absent from the matched numbers, zero-padded to
width 3, ignoring ids that do not match the pattern; the three example
allocations of the claim hold. When G000 is present the loop can stop early
and return an id already in use, which the defensive duplicate-id check then
rejects. -/
theorem allocate_smallest_missing (ids : List String) (hnd : ids.Nodup)
    (h0 : 0 ∉ gNums ids) :
    (allocate ids = String.mk ('G' :: pad3 (allocNumber ids)) ∧
     1 ≤ allocNumber ids ∧ allocNumber ids ∉ gNums ids ∧
     ∀ m, 1 ≤ m → m < allocNumber ids → m ∈ gNums ids) ∧
    allocate ["G001", "G002", "G004"] = "G003" ∧
    allocate [] = "G001" ∧
    allocate ["G001", "G002", "G003"] = "G004" := by
  have hperm := List.perm_insertionSort (fun a b => a ≤ b) (gNums ids)
  have hsorted := List.sorted_insertionSort (fun a b => a ≤ b) (gNums ids)
  have hnd2 : (List.insertionSort (fun a b => a ≤ b) (gNums ids)).Nodup :=
    hperm.nodup_iff.mpr (gNums_nodup ids hnd)
  have hlb : ∀ x ∈ List.insertionSort (fun a b => a ≤ b) (gNums ids), 1 ≤ x := by
    intro x hx
    have hx2 : x ∈ gNums ids := hperm.mem_iff.mp hx
    rcases Nat.eq_zero_or_pos x with h | h
    · exact absurd (h ▸ hx2) h0
    · exact h
  obtain ⟨h1, h2, h3⟩ := nextFree_spec _ 1 hsorted hnd2 hlb
  refine ⟨⟨rfl, h1, ?_, ?_⟩, by decide, by decide, by decide⟩
  · intro hmem
    exact h2 (hperm.mem_iff.mpr hmem)
  · intro m hm1 hm2
    exact hperm.mem_iff.mp (h3 m hm1 hm2)

theorem allocate_smallest_missing_witness :
    allocate ["G001", "G002", "G004"] = String.mk ('G' :: pad3 (allocNumber
      ["G001", "G002", "G004"])) ∧
    allocNumber ["G001", "G002", "G004"] ∉ gNums ["G001", "G002", "G004"] := by
  have h := allocate_smallest_missing ["G001", "G002", "G004"] (by decide) (by decide)
  exact ⟨h.1.1, h.1.2.2.1⟩

theorem char_ofNat_toNat (n : Nat) (h1 : 97 ≤ n) (h2 : n ≤ 122) :
    (Char.ofNat n).toNat = n := by
  have hv : n.isValidChar := Or.inl (by omega)
  simp only [Char.ofNat, dif_pos hv, Char.ofNatAux, Char.toNat]
  rfl

theorem jsDigit_toLowerJS (c : Char) (h : jsDigit c = false) :
    jsDigit (toLowerJS c) = false := by
  rw [toLowerJS]
  split
  · next hc =>
      rw [Bool.and_eq_true, decide_eq_true_iff, decide_eq_true_iff] at hc
      have h65 : 65 ≤ c.toNat := hc.1
      have h90 : c.toNat ≤ 90 := hc.2
      have hofn : (Char.ofNat (c.toNat + 32)).toNat = c.toNat + 32 :=
        char_ofNat_toNat _ (by omega) (by omega)
      cases hb : jsDigit (Char.ofNat (c.toNat + 32)) with
      | false => rfl
      | true =>
        obtain ⟨hl, hu⟩ := jsDigit_bounds _ hb
        rw [hofn] at hl hu
        omega
  · exact h

theorem matchFrom_no_digit (tail : List Char → Option Nat) (cs : List Char)
    (h : runLen jsDigit cs = 0) : matchFrom tail cs = none := by
  rw [matchFrom, h]
  rfl

theorem scanAux_no_digit (tail : List Char → Option Nat) : ∀ (fuel : Nat) (cs : List Char),
    (∀ c ∈ cs, jsDigit c = false) → scanAux tail fuel cs = [] := by
  intro fuel
  induction fuel with
  | zero => intro cs _; rfl
  | succ fuel ih =>
    intro cs h
    cases cs with
    | nil => rfl
    | cons c rest =>
      have hc : jsDigit c = false := h c (List.mem_cons_self c rest)
      have hrun : runLen jsDigit (c :: rest) = 0 := by
        simp [runLen, List.takeWhile_cons, hc]
      simp only [scanAux, matchFrom_no_digit tail _ hrun]
      exact ih rest (fun x hx => h x (List.mem_cons_of_mem c hx))

theorem scanMatches_no_digit (tail : List Char → Option Nat) (cs : List Char)
    (h : ∀ c ∈ cs, jsDigit c = false) : scanMatches tail cs = [] :=
  scanAux_no_digit tail cs.length cs h

/-- C6 counterexample: a description consisting of the bare English word bottle
yields no bottles at all; in particular beer is 0, not the implicit quantity 1
the claim asserts, because the fallback of the source tests only for the
substring bouteille. -/
theorem bottle_implicit_counterexample :
    parseBottlesFromDescription "bottle" = ⟨0, 0, 0, 0, 0⟩ ∧
    (parseBottlesFromDescription "bottle").beer ≠ 1 := by
  exact ⟨by decide, by decide⟩

/-- C6 amended: each digit-prefixed bouteille(s) occurrence not followed by a
size qualifier contributes its digit value to beer and all such matches are
summed (illustrated on concrete descriptions); and on every description that
contains no digit character at all, beer is 1 exactly when the lowercased text
contains the substring bouteille - the bare word bottle does not trigger the
implicit quantity 1. -/
theorem bouteille_beer_inference :
    (∀ d : String, (∀ c ∈ d.data, jsDigit c = false) →
      (parseBottlesFromDescription d).beer =
        if containsSub "bouteille".data (d.data.map toLowerJS) then 1 else 0) ∧
    (parseBottlesFromDescription "2 bouteilles et 3 bouteille").beer = 5 ∧
    (parseBottlesFromDescription "2 Bouteille").beer = 2 ∧
    (parseBottlesFromDescription "bouteille").beer = 1 ∧
    (parseBottlesFromDescription "bottle").beer = 0 := by
  refine ⟨?_, by decide, by decide, by decide, by decide⟩
  intro d h
  have hlow : ∀ c ∈ d.data.map toLowerJS, jsDigit c = false := by
    intro c hc
    obtain ⟨x, hx, rfl⟩ := List.mem_map.mp hc
    exact jsDigit_toLowerJS x (h x hx)
  have e1 : scanMatches tailChopine (d.data.map toLowerJS) = [] :=
    scanMatches_no_digit _ _ hlow
  have e2 : scanMatches (tailLit "1.5l".data) (d.data.map toLowerJS) = [] :=
    scanMatches_no_digit _ _ hlow
  have e3 : scanMatches (tailLit "2l".data) (d.data.map toLowerJS) = [] :=
    scanMatches_no_digit _ _ hlow
  have e4 : scanMatches (tailLit "0.5l".data) (d.data.map toLowerJS) = [] :=
    scanMatches_no_digit _ _ hlow
  have e5 : scanMatches tailBouteille (d.data.map toLowerJS) = [] :=
    scanMatches_no_digit _ _ hlow
  simp only [parseBottlesFromDescription, e1, e2, e3, e4, e5, List.sum_nil,
    List.isEmpty_nil, Bool.and_true, Nat.zero_add]

theorem bouteille_beer_inference_witness :
    (parseBottlesFromDescription "une bouteille svp").beer = 1 := by
  have h := bouteille_beer_inference.1 "une bouteille svp" (by decide)
  rw [h]
  decide

end GoldenPriceList
